import Mathlib

/-!
Verification of the throttling and retry core of the edit-view server
(`src/index.ts` of the repository, module-scope helpers and the
`/api/edit-image` handler).

The development shallowly embeds, from the source:
  * `parseRetryDelayMs` (lines 59-73), together with the fragment of
    `JSON.parse` semantics it relies on (a small executable JSON reader),
  * `isRateLimited` (lines 75-78),
  * `withRetries` (lines 80-98) as a structurally recursive function that
    also records the number of attempts made and the waits inserted,
  * the HTTP status computation of the catch handler (line 232),
  * the `Throttler` class (lines 21-55) as a labelled transition system
    over the JavaScript run-to-completion execution model: every
    synchronous block of the source is one atomic step, and the
    environment (timers firing, submissions arriving, the scheduled work
    settling, the clock advancing) drives the nondeterminism.

Numeric note: JavaScript computes `Math.ceil(sec * 1000)` on IEEE doubles.
The embedding computes the exact mathematical value (integer ceiling of
`mant * 1000 / 10 ^ scale` for the decimal literal `mant / 10 ^ scale`).
The two agree on every value the theorems below evaluate (the decimal
fractions in scope, such as 1.5 and -3, are exactly representable and
their products by 1000 are exact in double precision), and likewise
`2000 * 2 ^ attempt` is exact in double precision for every attempt
reachable with the bounded budgets in scope.
-/

/-- JSON values as produced by `JSON.parse`, for the subset of JSON that the
error messages in scope use: objects, arrays, strings without escape
sequences, decimal numbers without exponents, booleans and null. Object
members are kept in textual order. -/
inductive Json : Type where
  | null : Json
  | bool (b : Bool) : Json
  | num (lexeme : String) : Json
  | str (s : String) : Json
  | arr (elems : List Json) : Json
  | obj (members : List (String × Json)) : Json

/-- JSON insignificant whitespace. -/
def jsWsChar (c : Char) : Bool :=
  c == ' ' || c == '\t' || c == '\n' || c == '\r'

def skipWs (cs : List Char) : List Char :=
  cs.dropWhile jsWsChar

/-- Body of a JSON string literal after the opening quote: everything up to
the closing quote. Escape sequences are rejected (none occur in the
messages in scope). -/
def strLitAux : List Char → List Char → Option (String × List Char)
  | [], _ => none
  | c :: rest, acc =>
    if c = '"' then some (⟨acc.reverse⟩, rest)
    else if c = '\\' then none
    else strLitAux rest (c :: acc)

/-- A JSON number token: optional minus sign, integer digits, optional
fraction digits. Exponents are not modeled (absent from the inputs in
scope); the lexeme is kept verbatim. -/
def lexNum (cs : List Char) : Option (String × List Char) :=
  let sgn : List Char × List Char :=
    match cs with
    | '-' :: rest => (['-'], rest)
    | _ => ([], cs)
  let ip := sgn.2.takeWhile Char.isDigit
  let cs2 := sgn.2.dropWhile Char.isDigit
  if ip = [] then none
  else
    match cs2 with
    | '.' :: cs3 =>
      let fp := cs3.takeWhile Char.isDigit
      if fp = [] then none
      else some (⟨sgn.1 ++ ip ++ '.' :: fp⟩, cs3.dropWhile Char.isDigit)
    | _ => some (⟨sgn.1 ++ ip⟩, cs2)

/-- Recursive-descent state: reading a value, the remaining members of an
object, or the remaining elements of an array. -/
inductive PMode where
  | val : PMode
  | objRest (acc : List (String × Json)) : PMode
  | arrRest (acc : List Json) : PMode

/-- Fuel-indexed JSON reader. The fuel only bounds the recursion depth;
`jsonParse` supplies enough for any input (every other nested call consumes
at least one character). -/
def parseCore : Nat → PMode → List Char → Option (Json × List Char)
  | 0, _, _ => none
  | fuel + 1, PMode.val, cs =>
    match skipWs cs with
    | 'n' :: 'u' :: 'l' :: 'l' :: rest => some (Json.null, rest)
    | 't' :: 'r' :: 'u' :: 'e' :: rest => some (Json.bool true, rest)
    | 'f' :: 'a' :: 'l' :: 's' :: 'e' :: rest => some (Json.bool false, rest)
    | '"' :: rest => (strLitAux rest []).map (fun p => (Json.str p.1, p.2))
    | '\x7b' :: rest =>
      (match skipWs rest with
       | '\x7d' :: r2 => some (Json.obj [], r2)
       | r2 => parseCore fuel (PMode.objRest []) r2)
    | '[' :: rest =>
      (match skipWs rest with
       | ']' :: r2 => some (Json.arr [], r2)
       | r2 => parseCore fuel (PMode.arrRest []) r2)
    | rest => (lexNum rest).map (fun p => (Json.num p.1, p.2))
  | fuel + 1, PMode.objRest acc, cs =>
    match skipWs cs with
    | '"' :: rest =>
      (match strLitAux rest [] with
       | none => none
       | some (key, r1) =>
         match skipWs r1 with
         | ':' :: r2 =>
           (match parseCore fuel PMode.val r2 with
            | none => none
            | some (v, r3) =>
              match skipWs r3 with
              | ',' :: r4 => parseCore fuel (PMode.objRest ((key, v) :: acc)) r4
              | '\x7d' :: r4 => some (Json.obj ((key, v) :: acc).reverse, r4)
              | _ => none)
         | _ => none)
    | _ => none
  | fuel + 1, PMode.arrRest acc, cs =>
    match parseCore fuel PMode.val cs with
    | none => none
    | some (v, r1) =>
      match skipWs r1 with
      | ',' :: r2 => parseCore fuel (PMode.arrRest (v :: acc)) r2
      | ']' :: r2 => some (Json.arr (v :: acc).reverse, r2)
      | _ => none

/-- `JSON.parse`: parse one value and require that only whitespace remains.
`none` models the exception thrown on malformed input. -/
def jsonParse (s : String) : Option Json :=
  match parseCore (2 * s.length + 2) PMode.val s.data with
  | some (v, rest) => if skipWs rest = [] then some v else none
  | none => none

/-- JavaScript property read `o[key]` on a parsed JSON value: `none` models
`undefined` (non-object receiver or absent key). `JSON.parse` keeps the last
of duplicate keys, hence the reversed lookup. -/
def getField (j : Json) (key : String) : Option Json :=
  match j with
  | Json.obj kvs => (kvs.reverse.find? (fun kv => kv.1 == key)).map (fun kv => kv.2)
  | _ => none

/-- A JavaScript error as far as the code under study reads it: only its
`message` property, which may be absent (`none` models a missing or
non-string `message`). -/
structure JsErr where
  message : Option String
deriving DecidableEq

/-- `String.prototype.includes`, on character lists. -/
def includesL : List Char → List Char → Bool
  | [], pat => pat.isEmpty
  | c :: t, pat => pat.isPrefixOf (c :: t) || includesL t pat

/-- `s.includes(pat)`. -/
def jsIncludes (s pat : String) : Bool :=
  includesL s.data pat.data

/-- `isRateLimited` (source lines 75-78): substring classification of the
failure message; a missing message behaves as the empty string
(`(e as any)?.message || ""`). -/
def isRateLimited (e : JsErr) : Bool :=
  let msg := e.message.getD ""
  jsIncludes msg "RESOURCE_EXHAUSTED" || jsIncludes msg "Too Many Requests" ||
    jsIncludes msg "quota"

def RETRY_INFO_TYPE : String := "type.googleapis.com/google.rpc.RetryInfo"

/-- The predicate of `details.find((d) => d["@type"] === RETRY_INFO_TYPE)`:
strict equality with a string is true only for that exact string value. -/
def isRetryInfoB (d : Json) : Bool :=
  match getField d "@type" with
  | some (Json.str s) => s == RETRY_INFO_TYPE
  | _ => false

/-- `details.find(...)` itself. The outer `none` models the TypeError thrown
when the callback reads a property of a `null` element; that exception is
swallowed by the try/catch of `parseRetryDelayMs`. `some none` is `find`
returning `undefined`. -/
def findRetryInfo : List Json → Option (Option Json)
  | [] => some none
  | Json.null :: _ => none
  | d :: rest => if isRetryInfoB d then some (some d) else findRetryInfo rest

/-- `s.endsWith(suffix)`. -/
def endsWithS (s suffix : String) : Bool :=
  suffix.data.isSuffixOf s.data

def digitsToNatAux : Nat → List Char → Nat
  | acc, [] => acc
  | acc, c :: rest => digitsToNatAux (acc * 10 + (c.toNat - 48)) rest

/-- `parseFloat`: skip leading whitespace, optional sign, decimal digits with
optional fraction, ignoring any trailing characters; `none` models `NaN`.
The exact value parsed is `mant / 10 ^ scale` for the returned pair
`(mant, scale)`. Exponent forms and `Infinity` are not modeled (absent from
the inputs in scope). -/
def jsParseFloat (s : String) : Option (Int × Nat) :=
  let cs := skipWs s.data
  let sg : Bool × List Char :=
    match cs with
    | '-' :: rest => (true, rest)
    | '+' :: rest => (false, rest)
    | _ => (false, cs)
  let ip := sg.2.takeWhile Char.isDigit
  let cs2 := sg.2.dropWhile Char.isDigit
  let fp : List Char :=
    match cs2 with
    | '.' :: rest => rest.takeWhile Char.isDigit
    | _ => []
  if ip = [] ∧ fp = [] then none
  else
    let mant : Int := Int.ofNat (digitsToNatAux (digitsToNatAux 0 ip) fp)
    some (if sg.1 then -mant else mant, fp.length)

/-- Integer ceiling of the fraction `a / b`; `ceilIntDiv_eq_ceil` below
certifies it against the mathematical ceiling function used to read
`Math.ceil`. -/
def ceilIntDiv (a : Int) (b : Nat) : Int :=
  -((-a) / (b : Int))

/-- `parseRetryDelayMs` (source lines 59-73). Every branch in which the
JavaScript original either takes an early `return undefined`, skips the
`if`, or throws into the surrounding `catch \x7b \x7d`, is `none` here:
the function is total and parsing failures cannot escape it.
`Math.ceil(sec * 1000)` for the parsed decimal `mant / 10 ^ scale` is
computed as the exact integer ceiling of `mant * 1000 / 10 ^ scale`. -/
def parseRetryDelayMs (e : JsErr) : Option Int :=
  match e.message with
  | none => none
  | some str =>
    match jsonParse str with
    | none => none
    | some data =>
      match (getField data "error").bind (fun er => getField er "details") with
      | some (Json.arr details) =>
        (match findRetryInfo details with
         | none => none
         | some none => none
         | some (some ri) =>
           match getField ri "retryDelay" with
           | some (Json.str delay) =>
             if endsWithS delay "s" then
               (match jsParseFloat (⟨delay.data.dropLast⟩ : String) with
                | some ms => some (ceilIntDiv (ms.1 * 1000) (10 ^ ms.2))
                | none => none)
             else none
           | _ => none)
      | _ => none

/-- Observable behaviour of one `withRetries` call: the value returned or
failure rethrown, how many times the work was invoked, and the waits
inserted between attempts (in order, in milliseconds). -/
structure RetryResult (T : Type) where
  result : Except JsErr T
  attempts : Nat
  waits : List Int

/-- The loop of `withRetries` (source lines 80-98). The work is modeled as a
function from the attempt index to that attempt's outcome. `remaining`
counts the retries still allowed, i.e. `maxRetries - attempt`; the source's
guard `attempt < maxRetries` is exactly `remaining > 0`. -/
def runRetries {T : Type} (work : Nat → Except JsErr T) : Nat → Nat → RetryResult T
  | attempt, remaining =>
    match work attempt with
    | Except.ok v => ⟨Except.ok v, 1, []⟩
    | Except.error e =>
      match remaining with
      | 0 => ⟨Except.error e, 1, []⟩
      | r + 1 =>
        if isRateLimited e then
          let w : Int := (parseRetryDelayMs e).getD (2000 * 2 ^ attempt)
          let tail := runRetries work (attempt + 1) r
          ⟨tail.result, tail.attempts + 1, w :: tail.waits⟩
        else ⟨Except.error e, 1, []⟩

/-- `withRetries(work, maxRetries)` (source lines 80-98). -/
def withRetries {T : Type} (work : Nat → Except JsErr T) (maxRetries : Nat) :
    RetryResult T :=
  runRetries work 0 maxRetries

/-- HTTP status chosen by the catch handler of `POST /api/edit-image`
(source line 232) from the final failure's message. -/
def editImageStatus (message : String) : Nat :=
  if jsIncludes message "RESOURCE_EXHAUSTED" || jsIncludes message "Too Many Requests"
  then 429 else 500

/-! Concrete failure messages used by the theorems. Literal braces are
written with their character codes. -/

/-- The exact JSON document of the retry-hint claim:
`\x7b"error":\x7b"details":[\x7b"@type":"type.googleapis.com/google.rpc.RetryInfo","retryDelay":"1.5s"\x7d]\x7d\x7d`. -/
def hintDoc : String :=
  "\x7b\"error\":\x7b\"details\":[\x7b\"@type\":\"type.googleapis.com/google.rpc.RetryInfo\",\"retryDelay\":\"1.5s\"\x7d]\x7d\x7d"

def hintErr : JsErr := ⟨some hintDoc⟩

def hintWork : Nat → Except JsErr Unit := fun _ => Except.error hintErr

/-- The same RetryInfo document augmented with `"status":"RESOURCE_EXHAUSTED"`
(so the failure classifies as rate-limited) and with a second RetryInfo
entry of 9s after the 1.5s one (so first-match-wins is observable). -/
def hintDocRL : String :=
  "\x7b\"error\":\x7b\"status\":\"RESOURCE_EXHAUSTED\",\"details\":[\x7b\"@type\":\"type.googleapis.com/google.rpc.RetryInfo\",\"retryDelay\":\"1.5s\"\x7d,\x7b\"@type\":\"type.googleapis.com/google.rpc.RetryInfo\",\"retryDelay\":\"9s\"\x7d]\x7d\x7d"

def hintErrRL : JsErr := ⟨some hintDocRL⟩

def hintWorkRL : Nat → Except JsErr Unit := fun _ => Except.error hintErrRL

/-- A rate-limited JSON failure message whose first RetryInfo entry carries
the negative delay `-3s`. -/
def negDoc : String :=
  "\x7b\"error\":\x7b\"status\":\"RESOURCE_EXHAUSTED\",\"details\":[\x7b\"@type\":\"type.googleapis.com/google.rpc.RetryInfo\",\"retryDelay\":\"-3s\"\x7d]\x7d\x7d"

def negErr : JsErr := ⟨some negDoc⟩

def negWork : Nat → Except JsErr Unit := fun _ => Except.error negErr

def negRi : Json :=
  Json.obj [("@type", Json.str RETRY_INFO_TYPE), ("retryDelay", Json.str "-3s")]

def negJson : Json :=
  Json.obj [("error", Json.obj
    [("status", Json.str "RESOURCE_EXHAUSTED"), ("details", Json.arr [negRi])])]

/-- A rate-limited JSON failure message with no `details` field at all. -/
def noDetailsDoc : String :=
  "\x7b\"error\":\x7b\"status\":\"RESOURCE_EXHAUSTED\"\x7d\x7d"

def noHintErr : JsErr := ⟨some noDetailsDoc⟩

def noHintWork : Nat → Except JsErr Unit := fun _ => Except.error noHintErr

/-- A rate-limited JSON failure message whose `retryDelay` does not end in
`s`. -/
def noSDoc : String :=
  "\x7b\"error\":\x7b\"status\":\"RESOURCE_EXHAUSTED\",\"details\":[\x7b\"@type\":\"type.googleapis.com/google.rpc.RetryInfo\",\"retryDelay\":\"1.5\"\x7d]\x7d\x7d"

def rlErr : JsErr := ⟨some "RESOURCE_EXHAUSTED"⟩

def rlWork : Nat → Except JsErr Unit := fun _ => Except.error rlErr

def otherErr : JsErr := ⟨some "boom: connection reset"⟩

def otherWork : Nat → Except JsErr Unit := fun _ => Except.error otherErr

/-! The `Throttler` class (source lines 21-55), as a labelled transition
system over the JavaScript run-to-completion execution model.

Submissions are numbered in the order `schedule` is called; submission `i`'s
unit of work produces the outcome `work i` (of an opaque outcome type `O`
covering both resolution and rejection, so relaying is observable).

Each constructor of `ThrStep` is one synchronous JavaScript block (which the
event loop runs to completion) or one environment event:
  * `tick` — the clock advances (`Date.now()` is non-decreasing);
  * `submitIdle` — `schedule` called while `running` is false: sets
    `running = true` and runs `run()` up to its first suspension
    (lines 47-49 then 28-34);
  * `submitBusy` — `schedule` called while `running` is true: pushes the
    entry (lines 50-52);
  * `fire` — a pending `setTimeout(wait)` resumes, no earlier than its
    deadline: `lastTime = Date.now()` and the work is invoked (lines 31-34);
  * `settleIdle` / `settleNext` — the awaited work settles with its outcome;
    `resolve`/`reject` relays that outcome to the submitter, then the
    `finally` block either goes idle or starts the next queued entry
    (lines 35-45, then 28-34 for the next entry).

An in-flight activation of `run` is a `RunInst`: either waiting on its
timer or executing the work. The state deliberately allows any number of
in-flight activations, so mutual exclusion is a proved invariant, not a
modelling assumption. `dispatches` and `delivered` are observation logs:
`(i, t)` records that work `i` was invoked at time `t`, and `(i, o)` that
outcome `o` was relayed to submitter `i`. -/

inductive Phase where
  | waiting (deadline : Nat) : Phase
  | executing : Phase
deriving DecidableEq

structure RunInst where
  id : Nat
  phase : Phase
deriving DecidableEq

/-- The throttler state. `lastTime`, `running`, `queue` are the fields of the
source class; `insts` is the set of in-flight `run` activations; `now`,
`nextId`, `dispatches`, `delivered` are environment clock and observation
logs. -/
structure Throttler (O : Type) where
  lastTime : Nat
  running : Bool
  queue : List Nat
  insts : List RunInst
  now : Nat
  nextId : Nat
  dispatches : List (Nat × Nat)
  delivered : List (Nat × O)

/-- The synchronous prefix of `run()` (source lines 28-34) for entry `i`:
compute `wait = max(0, lastTime + interval - now)`; if `wait = 0`, set
`lastTime = Date.now()` and invoke the work at once; otherwise suspend on
`setTimeout(wait)`, whose deadline is `lastTime + interval`. -/
def startRun {O : Type} (I : Nat) (i : Nat) (s : Throttler O) : Throttler O :=
  if s.lastTime + I ≤ s.now then
    { s with lastTime := s.now,
             insts := s.insts ++ [⟨i, Phase.executing⟩],
             dispatches := s.dispatches ++ [(i, s.now)] }
  else
    { s with insts := s.insts ++ [⟨i, Phase.waiting (s.lastTime + I)⟩] }

/-- One step of the throttler system with interval `I` and work outcomes
`work`. -/
inductive ThrStep {O : Type} (I : Nat) (work : Nat → O) :
    Throttler O → Throttler O → Prop where
  | tick (s : Throttler O) (d : Nat) :
      ThrStep I work s { s with now := s.now + d }
  | submitIdle (s : Throttler O) (h : s.running = false) :
      ThrStep I work s
        (startRun I s.nextId { s with running := true, nextId := s.nextId + 1 })
  | submitBusy (s : Throttler O) (h : s.running = true) :
      ThrStep I work s
        { s with queue := s.queue ++ [s.nextId], nextId := s.nextId + 1 }
  | fire (s : Throttler O) (pre post : List RunInst) (i dl : Nat)
      (hins : s.insts = pre ++ RunInst.mk i (Phase.waiting dl) :: post)
      (hnow : dl ≤ s.now) :
      ThrStep I work s
        { s with insts := pre ++ RunInst.mk i Phase.executing :: post,
                 lastTime := s.now,
                 dispatches := s.dispatches ++ [(i, s.now)] }
  | settleIdle (s : Throttler O) (pre post : List RunInst) (i : Nat)
      (hins : s.insts = pre ++ RunInst.mk i Phase.executing :: post)
      (hq : s.queue = []) :
      ThrStep I work s
        { s with insts := pre ++ post, running := false,
                 delivered := s.delivered ++ [(i, work i)] }
  | settleNext (s : Throttler O) (pre post : List RunInst) (i j : Nat)
      (rest : List Nat)
      (hins : s.insts = pre ++ RunInst.mk i Phase.executing :: post)
      (hq : s.queue = j :: rest) :
      ThrStep I work s
        (startRun I j { s with insts := pre ++ post, queue := rest,
                               delivered := s.delivered ++ [(i, work i)] })

/-- A freshly constructed throttler (`lastTime = 0`, idle, empty queue) at
clock value `n0`. -/
def initThr (O : Type) (n0 : Nat) : Throttler O :=
  ⟨0, false, [], [], n0, 0, [], []⟩

/-- Reachability from the initial state. -/
def ThrReach {O : Type} (I : Nat) (work : Nat → O) (n0 : Nat)
    (s : Throttler O) : Prop :=
  Relation.ReflTransGen (ThrStep I work) (initThr O n0) s

def Phase.isExec : Phase → Bool
  | Phase.executing => true
  | Phase.waiting _ => false

/-- How many units of work are executing right now. -/
def execCount {O : Type} (s : Throttler O) : Nat :=
  (s.insts.filter (fun r => r.phase.isExec)).length

/-- The id the front of the queue would have (queued ids are consecutive). -/
def startQ {O : Type} (s : Throttler O) : Nat :=
  match s.insts with
  | [r] => r.id + 1
  | _ => s.dispatches.length

/-- The inductive invariant of the throttler system. -/
structure ThrInv {O : Type} (I : Nat) (work : Nat → O) (s : Throttler O) :
    Prop where
  instLen : s.insts.length ≤ 1
  runIff : s.running = true ↔ s.insts ≠ []
  idleQueue : s.running = false → s.queue = []
  lastDisp : (s.dispatches = [] ∧ s.lastTime = 0) ∨
    (∃ p, s.dispatches.getLast? = some p ∧ p.2 = s.lastTime)
  chain : List.Chain' (fun a b : Nat × Nat => a.2 + I ≤ b.2) s.dispatches
  waitDl : ∀ i dl, RunInst.mk i (Phase.waiting dl) ∈ s.insts →
    dl = s.lastTime + I
  dispIds : s.dispatches.map Prod.fst = List.range s.dispatches.length
  waitId : ∀ i dl, RunInst.mk i (Phase.waiting dl) ∈ s.insts →
    i = s.dispatches.length
  execId : ∀ i, RunInst.mk i Phase.executing ∈ s.insts →
    i + 1 = s.dispatches.length
  queueIds : s.queue = List.range' (startQ s) s.queue.length
  nextIdEq : s.nextId = startQ s + s.queue.length
  delivIds : s.delivered.map Prod.fst = List.range s.delivered.length
  delivCount : s.delivered.length + execCount s = s.dispatches.length
  delivWork : ∀ p ∈ s.delivered, p.2 = work p.1

/-- Demo outcomes: every unit of work fails. -/
def demoWork : Nat → Except String Unit := fun _ => Except.error "boom"

/-- The state after one `submitIdle` from `initThr _ 1000` with interval 100:
entry 0 dispatched at time 1000 and executing. -/
def demoS1 : Throttler (Except String Unit) :=
  ⟨1000, true, [], [⟨0, Phase.executing⟩], 1000, 1, [(0, 1000)], []⟩

/-- The state after a further `submitBusy`: entry 1 queued behind the
executing entry 0. -/
def demoS2 : Throttler (Except String Unit) :=
  ⟨1000, true, [1], [⟨0, Phase.executing⟩], 1000, 2, [(0, 1000)], []⟩

/-! Theorems. -/

set_option maxRecDepth 10000

/-- `ceilIntDiv` agrees with the mathematical ceiling of the fraction,
certifying the integer reading of `Math.ceil(sec * 1000)`. -/
theorem ceilIntDiv_eq_ceil (a : Int) (b : Nat) :
    ceilIntDiv a b = ⌈(a : ℚ) / (b : ℚ)⌉ := by
  have h : ((a : ℚ) / (b : ℚ)) = -((((-a : ℤ) : ℚ)) / ((b : ℕ) : ℚ)) := by
    push_cast; ring
  rw [ceilIntDiv, h, Int.ceil_neg, Rat.floor_intCast_div_natCast]

/-- `find` skips a non-null element whose `@type` does not match. -/
theorem findRetryInfo_skip {d : Json} {rest : List Json}
    (hne : d ≠ Json.null) (hno : isRetryInfoB d = false) :
    findRetryInfo (d :: rest) = findRetryInfo rest := by
  cases d with
  | null => exact absurd rfl hne
  | bool b => simp [findRetryInfo, hno]
  | num l => simp [findRetryInfo, hno]
  | str s => simp [findRetryInfo, hno]
  | arr l => simp [findRetryInfo, hno]
  | obj m => simp [findRetryInfo, hno]

/-- `find` stops at a matching element. -/
theorem findRetryInfo_found {d : Json} {rest : List Json}
    (hne : d ≠ Json.null) (hyes : isRetryInfoB d = true) :
    findRetryInfo (d :: rest) = some (some d) := by
  cases d with
  | null => exact absurd rfl hne
  | bool b => simp [findRetryInfo, hyes]
  | num l => simp [findRetryInfo, hyes]
  | str s => simp [findRetryInfo, hyes]
  | arr l => simp [findRetryInfo, hyes]
  | obj m => simp [findRetryInfo, hyes]

/-- A matching element is never `null` (null has no `@type`). -/
theorem ne_null_of_isRetryInfoB {ri : Json} (hri : isRetryInfoB ri = true) :
    ri ≠ Json.null := by
  intro hh
  rw [hh] at hri
  simp [isRetryInfoB, getField] at hri

/-- `details.find` returns the first matching entry. -/
theorem findRetryInfo_first {ri : Json} (hri : isRetryInfoB ri = true) :
    ∀ pre : List Json, (∀ d ∈ pre, d ≠ Json.null ∧ isRetryInfoB d = false) →
      ∀ post : List Json, findRetryInfo (pre ++ ri :: post) = some (some ri)
  | [], _, post => findRetryInfo_found (ne_null_of_isRetryInfoB hri) hri
  | d :: ds, hpre, post => by
    obtain ⟨h1, h2⟩ := hpre d (List.mem_cons_self d ds)
    rw [List.cons_append, findRetryInfo_skip h1 h2]
    exact findRetryInfo_first hri ds
      (fun x hx => hpre x (List.mem_cons_of_mem _ hx)) post

/-- Claim C4 (retry exhaustion): a unit of work that fails on every attempt
with a message containing `RESOURCE_EXHAUSTED` makes exactly 3 attempts
under `withRetries(work, 2)` and then fails with exactly the failure of the
third attempt, unwrapped. -/
theorem c4_retry_exhaustion {T : Type} (work : Nat → Except JsErr T)
    (hf : ∀ n, ∃ e, work n = Except.error e ∧
      jsIncludes (e.message.getD "") "RESOURCE_EXHAUSTED" = true) :
    (withRetries work 2).attempts = 3 ∧ (withRetries work 2).result = work 2 := by
  obtain ⟨e0, h0, m0⟩ := hf 0
  obtain ⟨e1, h1, m1⟩ := hf 1
  obtain ⟨e2, h2, m2⟩ := hf 2
  have r0 : isRateLimited e0 = true := by simp [isRateLimited, m0]
  have r1 : isRateLimited e1 = true := by simp [isRateLimited, m1]
  constructor
  · simp [withRetries, runRetries, h0, h1, h2, r0, r1]
  · simp [withRetries, runRetries, h0, h1, h2, r0, r1]

/-- Witness for C4 at a concrete always-failing rate-limited work. -/
theorem c4_witness :
    (withRetries rlWork 2).attempts = 3 ∧ (withRetries rlWork 2).result = rlWork 2 :=
  c4_retry_exhaustion rlWork (fun _ => ⟨rlErr, rfl, by decide⟩)

/-- Claim C7 (non-retryable fails fast): if the first attempt's failure
message contains none of the three classification substrings, `withRetries`
makes exactly one attempt, inserts no wait, and rethrows that same failure,
for every `maxRetries`. -/
theorem c7_nonretryable_fails_fast {T : Type} (work : Nat → Except JsErr T)
    (maxRetries : Nat) (e : JsErr)
    (h0 : work 0 = Except.error e)
    (ha : jsIncludes (e.message.getD "") "RESOURCE_EXHAUSTED" = false)
    (hb : jsIncludes (e.message.getD "") "Too Many Requests" = false)
    (hc : jsIncludes (e.message.getD "") "quota" = false) :
    withRetries work maxRetries = ⟨Except.error e, 1, []⟩ := by
  have hrl : isRateLimited e = false := by simp [isRateLimited, ha, hb, hc]
  cases maxRetries with
  | zero => simp [withRetries, runRetries, h0]
  | succ r => simp [withRetries, runRetries, h0, hrl]

/-- Witness for C7 at a concrete non-retryable failure and budget 5. -/
theorem c7_witness :
    withRetries otherWork 5 = ⟨Except.error otherErr, 1, []⟩ :=
  c7_nonretryable_fails_fast otherWork 5 otherErr rfl (by decide) (by decide)
    (by decide)

/-- One retrying unfolding of the `withRetries` loop: the failed attempt is
counted, the computed wait is recorded, and the loop continues at the next
attempt index. -/
theorem runRetries_retry_eq {T : Type} (work : Nat → Except JsErr T) (a r : Nat)
    (e : JsErr) (he : work a = Except.error e) (hrl : isRateLimited e = true) :
    runRetries work a (r + 1) =
      ⟨(runRetries work (a + 1) r).result,
       (runRetries work (a + 1) r).attempts + 1,
       (parseRetryDelayMs e).getD (2000 * 2 ^ a) :: (runRetries work (a + 1) r).waits⟩ := by
  conv_lhs => rw [runRetries]
  rw [he]
  simp [hrl]

/-- The budget-exhausted unfolding of the `withRetries` loop. -/
theorem runRetries_zero_err {T : Type} (work : Nat → Except JsErr T) (a : Nat)
    (e : JsErr) (he : work a = Except.error e) :
    runRetries work a 0 = ⟨Except.error e, 1, []⟩ := by
  conv_lhs => rw [runRetries]
  rw [he]

/-- From attempt `a` with `r` retries remaining, a work that always fails
rate-limited with no parseable hint produces exactly the exponential waits
`2000 * 2 ^ (a + k)` and ends with the last attempt's own failure. -/
theorem runRetries_backoff {T : Type} (work : Nat → Except JsErr T)
    (hf : ∀ n, ∃ e, work n = Except.error e ∧ isRateLimited e = true ∧
      parseRetryDelayMs e = none) :
    ∀ r a : Nat,
      (runRetries work a r).waits =
        (List.range r).map (fun k => 2000 * 2 ^ (a + k)) ∧
      (runRetries work a r).result = work (a + r)
  | 0, a => by
    obtain ⟨e, he, _, _⟩ := hf a
    rw [runRetries_zero_err work a e he]
    exact ⟨by simp, by simp [he]⟩
  | r + 1, a => by
    obtain ⟨e, he, hrl, hpd⟩ := hf a
    have ih := runRetries_backoff work hf r (a + 1)
    have hfun : (fun k => 2000 * 2 ^ (a + 1 + k)) =
        (fun k => 2000 * 2 ^ (a + (k + 1))) :=
      funext fun k => by rw [Nat.add_assoc, Nat.add_comm 1 k]
    rw [runRetries_retry_eq work a r e he hrl]
    constructor
    · rw [hpd]
      simp only [Option.getD_none]
      rw [ih.1, List.range_succ_eq_map]
      simp only [hfun, List.map_cons, List.map_map, Function.comp]
      simp
      intro k _
      omega
    · rw [ih.2]
      congr 1
      omega

/-- Claim C6 (backoff fallback and parse-error silencing): when every
attempt fails rate-limited with no parseable retry hint, the wait recorded
after attempt `n` is exactly `2000 * 2 ^ n` ms, the final outcome is the
last attempt's own failure (no parse error ever replaces it), and the three
unparseable shapes named by the claim (non-JSON message, absent fields,
`retryDelay` without a trailing `s`) indeed yield no hint. -/
theorem c6_backoff_fallback {T : Type} (work : Nat → Except JsErr T)
    (maxRetries : Nat)
    (hf : ∀ n, ∃ e, work n = Except.error e ∧ isRateLimited e = true ∧
      parseRetryDelayMs e = none) :
    (withRetries work maxRetries).waits =
      (List.range maxRetries).map (fun n => 2000 * 2 ^ n) ∧
    (withRetries work maxRetries).result = work maxRetries ∧
    parseRetryDelayMs ⟨some "RESOURCE_EXHAUSTED: rate limit hit"⟩ = none ∧
    parseRetryDelayMs ⟨some noDetailsDoc⟩ = none ∧
    parseRetryDelayMs ⟨some noSDoc⟩ = none := by
  have h := runRetries_backoff work hf maxRetries 0
  refine ⟨?_, ?_, by decide, by decide, by decide⟩
  · simpa using h.1
  · simpa using h.2

/-- Witness for C6 at a concrete rate-limited, hint-free work and budget 2. -/
theorem c6_witness :
    (withRetries noHintWork 2).waits =
      (List.range 2).map (fun n => 2000 * 2 ^ n) ∧
    (withRetries noHintWork 2).result = noHintWork 2 ∧
    parseRetryDelayMs ⟨some "RESOURCE_EXHAUSTED: rate limit hit"⟩ = none ∧
    parseRetryDelayMs ⟨some noDetailsDoc⟩ = none ∧
    parseRetryDelayMs ⟨some noSDoc⟩ = none :=
  c6_backoff_fallback noHintWork 2
    (fun _ => ⟨noHintErr, rfl, by decide, by decide⟩)

/-- Counterexample to claim C5 as stated: the parser does extract 1500 ms
from the claim's exact JSON document, but that document contains none of the
classification substrings, so a failure whose message is exactly this
document is not rate-limited and `withRetries` makes no further attempt and
inserts no wait at all — in particular no 1500 ms wait ever happens. -/
theorem c5_counterexample :
    parseRetryDelayMs hintErr = some 1500 ∧
    isRateLimited hintErr = false ∧
    (withRetries hintWork 2).attempts = 1 ∧
    (withRetries hintWork 2).waits = [] := by
  refine ⟨by decide, by decide, ?_, ?_⟩
  · simp [withRetries, runRetries, hintWork,
      show isRateLimited hintErr = false by decide]
  · simp [withRetries, runRetries, hintWork,
      show isRateLimited hintErr = false by decide]

/-- Claim C5, amended: when an attempt fails with a failure that is
classified rate-limited and whose message carries the RetryInfo document
with `retryDelay` `"1.5s"` as its first matching detail entry, the wait
before the next attempt is exactly 1500 ms (the seconds value converted to
milliseconds, rounded up), not the exponential-backoff default; only the
first matching detail entry is consulted (the second 9s entry of
`hintDocRL` is ignored). -/
theorem c5_amended {T : Type} (work : Nat → Except JsErr T) (m : Nat)
    (hm : 0 < m) (h0 : work 0 = Except.error hintErrRL) :
    (withRetries work m).waits.head? = some 1500 ∧
    parseRetryDelayMs hintErrRL = some 1500 := by
  obtain ⟨r, rfl⟩ : ∃ r, m = r + 1 := ⟨m - 1, (Nat.succ_pred_eq_of_pos hm).symm⟩
  refine ⟨?_, by decide⟩
  rw [withRetries, runRetries_retry_eq work 0 r hintErrRL h0
    (by decide : isRateLimited hintErrRL = true)]
  simp [show parseRetryDelayMs hintErrRL = some 1500 by decide]

/-- Witness for the amended C5 at a concrete work and budget 2. -/
theorem c5_witness :
    (withRetries hintWorkRL 2).waits.head? = some 1500 ∧
    parseRetryDelayMs hintErrRL = some 1500 :=
  c5_amended hintWorkRL 2 (by decide) rfl

/-- Claim C9 (implicit): a failure whose message is valid JSON whose first
matching RetryInfo detail carries `retryDelay` `"-3s"` yields
`ceil(-3 * 1000) = -3000` from `parseRetryDelayMs` — the negative value is
not treated as "no hint" — and if such a failure is also classified
rate-limited, `withRetries` uses the negative wait `-3000` for the next
attempt instead of the exponential-backoff fallback. -/
theorem c9_negative_delay {T : Type} (work : Nat → Except JsErr T) (m : Nat)
    (e : JsErr) (msg : String) (g ri : Json) (pre post : List Json)
    (hmsg : e.message = some msg)
    (hparse : jsonParse msg = some g)
    (hdet : (getField g "error").bind (fun er => getField er "details")
      = some (Json.arr (pre ++ ri :: post)))
    (hpre : ∀ d ∈ pre, d ≠ Json.null ∧ isRetryInfoB d = false)
    (hri : isRetryInfoB ri = true)
    (hdelay : getField ri "retryDelay" = some (Json.str "-3s"))
    (hrl : isRateLimited e = true)
    (hw : work 0 = Except.error e)
    (hm : 0 < m) :
    parseRetryDelayMs e = some (-3000) ∧
    (withRetries work m).waits.head? = some (-3000) := by
  have hfind : findRetryInfo (pre ++ ri :: post) = some (some ri) :=
    findRetryInfo_first hri pre hpre post
  have hparsed : parseRetryDelayMs e = some (-3000) := by
    simp only [parseRetryDelayMs, hmsg, hparse, hdet, hfind, hdelay]
    decide
  refine ⟨hparsed, ?_⟩
  obtain ⟨r, rfl⟩ : ∃ r, m = r + 1 := ⟨m - 1, (Nat.succ_pred_eq_of_pos hm).symm⟩
  rw [withRetries, runRetries_retry_eq work 0 r e hw hrl]
  simp [hparsed]

/-- Witness for C9 at the concrete rate-limited `-3s` document. -/
theorem c9_witness :
    parseRetryDelayMs negErr = some (-3000) ∧
    (withRetries negWork 1).waits.head? = some (-3000) :=
  c9_negative_delay negWork 1 negErr negDoc negJson negRi [] [] rfl rfl rfl
    (by simp) rfl rfl (by decide) rfl (by decide)

/-- Claim C10 (implicit): a final failure whose message contains `"quota"`
but neither `"RESOURCE_EXHAUSTED"` nor `"Too Many Requests"` is mapped to
HTTP status 500 by the `/api/edit-image` catch handler, even though
`isRateLimited` classifies it as retryable: the status mapping and the
retry classification use different substring sets. -/
theorem c10_quota_status_mismatch (msg : String)
    (hq : jsIncludes msg "quota" = true)
    (h1 : jsIncludes msg "RESOURCE_EXHAUSTED" = false)
    (h2 : jsIncludes msg "Too Many Requests" = false) :
    editImageStatus msg = 500 ∧ isRateLimited ⟨some msg⟩ = true := by
  constructor
  · simp [editImageStatus, h1, h2]
  · simp [isRateLimited, hq]

/-- Witness for C10 at a concrete quota message. -/
theorem c10_witness :
    editImageStatus "You exceeded your current quota, please check your plan" = 500 ∧
    isRateLimited ⟨some "You exceeded your current quota, please check your plan"⟩ = true :=
  c10_quota_status_mismatch "You exceeded your current quota, please check your plan"
    (by decide) (by decide) (by decide)

/-- A decomposition of a list of length at most one around a chosen element
forces the list to be the singleton of that element. -/
theorem single_of_append_len_le {α : Type} {l pre post : List α} {x : α}
    (h : l = pre ++ x :: post) (hlen : l.length ≤ 1) :
    pre = [] ∧ post = [] ∧ l = [x] := by
  subst h
  have h1 : pre.length = 0 := by simp [List.length_append] at hlen; omega
  have h2 : post.length = 0 := by simp [List.length_append] at hlen; omega
  obtain rfl := List.length_eq_zero.mp h1
  obtain rfl := List.length_eq_zero.mp h2
  exact ⟨rfl, rfl, rfl⟩

/-- Appending an element related to the last element preserves a chain. -/
theorem chain'_append_single {α : Type} {R : α → α → Prop} {l : List α} {b : α}
    (hc : List.Chain' R l) (hl : ∀ p, l.getLast? = some p → R p b) :
    List.Chain' R (l ++ [b]) := by
  rw [List.chain'_append]
  refine ⟨hc, List.chain'_singleton b, ?_⟩
  intro x hx y hy
  simp at hy
  subst hy
  exact hl x hx

/-- Appending the next consecutive id keeps the first components of the
dispatch log equal to `range`. -/
theorem map_fst_append_range {l : List (Nat × Nat)} {t : Nat}
    (h : l.map Prod.fst = List.range l.length) :
    (l ++ [(l.length, t)]).map Prod.fst =
      List.range (l ++ [(l.length, t)]).length := by
  simp [List.map_append, h, List.range_succ]

/-- The zero-wait branch of `startRun`. -/
theorem startRun_dispatch {O : Type} {I i : Nat} {s : Throttler O}
    (h : s.lastTime + I ≤ s.now) :
    startRun I i s =
      { s with lastTime := s.now,
               insts := s.insts ++ [⟨i, Phase.executing⟩],
               dispatches := s.dispatches ++ [(i, s.now)] } := by
  simp [startRun, h]

/-- The positive-wait branch of `startRun`. -/
theorem startRun_wait {O : Type} {I i : Nat} {s : Throttler O}
    (h : ¬ s.lastTime + I ≤ s.now) :
    startRun I i s =
      { s with insts := s.insts ++ [⟨i, Phase.waiting (s.lastTime + I)⟩] } := by
  simp [startRun, h]

/-- An idle throttler has no in-flight activation. -/
theorem insts_nil_of_not_running {O : Type} {I : Nat} {work : Nat → O}
    {s : Throttler O} (hs : ThrInv I work s) (h : s.running = false) :
    s.insts = [] := by
  by_contra hne
  have hrt := hs.runIff.mpr hne
  rw [h] at hrt
  exact Bool.noConfusion hrt

/-- Invariant preservation for the shared tail of `submitIdle` and
`settleNext`: `startRun` on a state with no activation, consecutive queued
ids starting at `j + 1`, and `j` the next id to dispatch. -/
theorem thrInv_startRun {O : Type} {I : Nat} {work : Nat → O}
    (mid : Throttler O) (j : Nat)
    (hrun : mid.running = true)
    (hinsts : mid.insts = [])
    (hj : j = mid.dispatches.length)
    (hqueue : mid.queue = List.range' (j + 1) mid.queue.length)
    (hnext : mid.nextId = j + 1 + mid.queue.length)
    (hlastDisp : (mid.dispatches = [] ∧ mid.lastTime = 0) ∨
      (∃ p, mid.dispatches.getLast? = some p ∧ p.2 = mid.lastTime))
    (hchain : List.Chain' (fun a b : Nat × Nat => a.2 + I ≤ b.2) mid.dispatches)
    (hdispIds : mid.dispatches.map Prod.fst = List.range mid.dispatches.length)
    (hdelivIds : mid.delivered.map Prod.fst = List.range mid.delivered.length)
    (hdelivLen : mid.delivered.length = mid.dispatches.length)
    (hdelivWork : ∀ p ∈ mid.delivered, p.2 = work p.1) :
    ThrInv I work (startRun I j mid) := by
  by_cases hle : mid.lastTime + I ≤ mid.now
  · rw [startRun_dispatch hle]
    refine ⟨?_, ?_, ?_, ?_, ?_, ?_, ?_, ?_, ?_, ?_, ?_, ?_, ?_, ?_⟩
    · simp [hinsts]
    · simp [hrun, hinsts]
    · simp [hrun]
    · exact Or.inr ⟨(j, mid.now), by simp [List.getLast?_concat], rfl⟩
    · refine chain'_append_single hchain ?_
      intro p hp
      rcases hlastDisp with ⟨hnil, _⟩ | ⟨q, hq, hq2⟩
      · rw [hnil] at hp; simp at hp
      · rw [hq] at hp
        have hqp : q = p := by injection hp
        subst hqp
        show q.2 + I ≤ mid.now
        rw [hq2]
        exact hle
    · intro i dl hmem
      simp [hinsts] at hmem
    · rw [hj]
      exact map_fst_append_range hdispIds
    · intro i dl hmem
      simp [hinsts] at hmem
    · intro i hmem
      simp [hinsts] at hmem
      simp [hmem, hj]
    · simp only [startQ, hinsts, List.nil_append]
      exact hqueue
    · simp only [startQ, hinsts, List.nil_append]
      exact hnext
    · exact hdelivIds
    · simp [execCount, hinsts, Phase.isExec, hdelivLen]
    · exact hdelivWork
  · rw [startRun_wait hle]
    refine ⟨?_, ?_, ?_, ?_, ?_, ?_, ?_, ?_, ?_, ?_, ?_, ?_, ?_, ?_⟩
    · simp [hinsts]
    · simp [hrun, hinsts]
    · simp [hrun]
    · exact hlastDisp
    · exact hchain
    · intro i dl hmem
      simp [hinsts] at hmem
      exact hmem.2
    · exact hdispIds
    · intro i dl hmem
      simp [hinsts] at hmem
      rw [hmem.1, hj]
    · intro i hmem
      simp [hinsts] at hmem
    · simp only [startQ, hinsts, List.nil_append]
      exact hqueue
    · simp only [startQ, hinsts, List.nil_append]
      exact hnext
    · exact hdelivIds
    · simp [execCount, hinsts, Phase.isExec, hdelivLen]
    · exact hdelivWork

/-- `tick` changes only the clock; every invariant field ignores it. -/
theorem thrInv_tick {O : Type} {I : Nat} {work : Nat → O} {s : Throttler O}
    (hs : ThrInv I work s) (d : Nat) :
    ThrInv I work { s with now := s.now + d } :=
  { instLen := hs.instLen, runIff := hs.runIff, idleQueue := hs.idleQueue,
    lastDisp := hs.lastDisp, chain := hs.chain, waitDl := hs.waitDl,
    dispIds := hs.dispIds, waitId := hs.waitId, execId := hs.execId,
    queueIds := hs.queueIds, nextIdEq := hs.nextIdEq, delivIds := hs.delivIds,
    delivCount := hs.delivCount, delivWork := hs.delivWork }

theorem thrInv_submitIdle {O : Type} {I : Nat} {work : Nat → O}
    {s : Throttler O} (hs : ThrInv I work s) (h : s.running = false) :
    ThrInv I work (startRun I s.nextId
      { s with running := true, nextId := s.nextId + 1 }) := by
  have hinsts : s.insts = [] := insts_nil_of_not_running hs h
  have hq : s.queue = [] := hs.idleQueue h
  have hsq : startQ s = s.dispatches.length := by simp [startQ, hinsts]
  have hnext : s.nextId = s.dispatches.length := by
    have h2 := hs.nextIdEq
    rw [hsq, hq] at h2
    simpa using h2
  apply thrInv_startRun
  · rfl
  · exact hinsts
  · exact hnext
  · show s.queue = _
    simp [hq]
  · show s.nextId + 1 = s.nextId + 1 + s.queue.length
    simp [hq]
  · exact hs.lastDisp
  · exact hs.chain
  · exact hs.dispIds
  · exact hs.delivIds
  · show s.delivered.length = s.dispatches.length
    have hc := hs.delivCount
    have he : execCount s = 0 := by simp [execCount, hinsts]
    omega
  · exact hs.delivWork

theorem thrInv_submitBusy {O : Type} {I : Nat} {work : Nat → O}
    {s : Throttler O} (hs : ThrInv I work s) (h : s.running = true) :
    ThrInv I work
      { s with queue := s.queue ++ [s.nextId], nextId := s.nextId + 1 } := by
  refine ⟨?_, ?_, ?_, ?_, ?_, ?_, ?_, ?_, ?_, ?_, ?_, ?_, ?_, ?_⟩
  · exact hs.instLen
  · exact hs.runIff
  · intro hf
    exact Bool.noConfusion (h.symm.trans hf)
  · exact hs.lastDisp
  · exact hs.chain
  · exact hs.waitDl
  · exact hs.dispIds
  · exact hs.waitId
  · exact hs.execId
  · show s.queue ++ [s.nextId] =
      List.range' (startQ s) (s.queue ++ [s.nextId]).length
    simp only [List.length_append, List.length_cons, List.length_nil]
    rw [List.range'_1_concat, ← hs.queueIds, ← hs.nextIdEq]
  · show s.nextId + 1 = startQ s + (s.queue ++ [s.nextId]).length
    simp only [List.length_append, List.length_cons, List.length_nil]
    have h2 := hs.nextIdEq
    omega
  · exact hs.delivIds
  · exact hs.delivCount
  · exact hs.delivWork

theorem thrInv_fire {O : Type} {I : Nat} {work : Nat → O} {s : Throttler O}
    (hs : ThrInv I work s) (pre post : List RunInst) (i dl : Nat)
    (hins : s.insts = pre ++ RunInst.mk i (Phase.waiting dl) :: post)
    (hnow : dl ≤ s.now) :
    ThrInv I work
      { s with insts := pre ++ RunInst.mk i Phase.executing :: post,
               lastTime := s.now,
               dispatches := s.dispatches ++ [(i, s.now)] } := by
  obtain ⟨rfl, rfl, hsingle⟩ := single_of_append_len_le hins hs.instLen
  have hmem : RunInst.mk i (Phase.waiting dl) ∈ s.insts := by
    rw [hsingle]; exact List.mem_singleton.mpr rfl
  have hdl : dl = s.lastTime + I := hs.waitDl i dl hmem
  have hid : i = s.dispatches.length := hs.waitId i dl hmem
  have hrun : s.running = true := hs.runIff.mpr (by rw [hsingle]; simp)
  refine ⟨?_, ?_, ?_, ?_, ?_, ?_, ?_, ?_, ?_, ?_, ?_, ?_, ?_, ?_⟩
  · simp
  · simp [hrun]
  · intro hf
    exact Bool.noConfusion (hrun.symm.trans hf)
  · exact Or.inr ⟨(i, s.now), by simp [List.getLast?_concat], rfl⟩
  · refine chain'_append_single hs.chain ?_
    intro p hp
    rcases hs.lastDisp with ⟨hnil, _⟩ | ⟨q, hq, hq2⟩
    · rw [hnil] at hp; simp at hp
    · rw [hq] at hp
      have hqp : q = p := by injection hp
      subst hqp
      show q.2 + I ≤ s.now
      rw [hq2]
      omega
  · intro i' dl' hmem'
    simp at hmem'
  · rw [hid]
    exact map_fst_append_range hs.dispIds
  · intro i' dl' hmem'
    simp at hmem'
  · intro i' hmem'
    simp at hmem'
    simp [hmem', hid]
  · show s.queue = List.range' (i + 1) s.queue.length
    have h2 : startQ s = i + 1 := by simp [startQ, hsingle]
    have hq2 := hs.queueIds
    rw [h2] at hq2
    exact hq2
  · show s.nextId = i + 1 + s.queue.length
    have h2 : startQ s = i + 1 := by simp [startQ, hsingle]
    have h3 := hs.nextIdEq
    rw [h2] at h3
    exact h3
  · exact hs.delivIds
  · show s.delivered.length + 1 = (s.dispatches ++ [(i, s.now)]).length
    have he : execCount s = 0 := by simp [execCount, hsingle, Phase.isExec]
    have hc := hs.delivCount
    simp only [List.length_append, List.length_cons, List.length_nil]
    omega
  · exact hs.delivWork

theorem thrInv_settleIdle {O : Type} {I : Nat} {work : Nat → O}
    {s : Throttler O} (hs : ThrInv I work s) (pre post : List RunInst) (i : Nat)
    (hins : s.insts = pre ++ RunInst.mk i Phase.executing :: post)
    (hq : s.queue = []) :
    ThrInv I work { s with insts := pre ++ post, running := false,
                           delivered := s.delivered ++ [(i, work i)] } := by
  obtain ⟨rfl, rfl, hsingle⟩ := single_of_append_len_le hins hs.instLen
  have hmem : RunInst.mk i Phase.executing ∈ s.insts := by
    rw [hsingle]; exact List.mem_singleton.mpr rfl
  have hid : i + 1 = s.dispatches.length := hs.execId i hmem
  have hexec : execCount s = 1 := by simp [execCount, hsingle, Phase.isExec]
  have hdlen : s.delivered.length = i := by
    have hc := hs.delivCount
    omega
  refine ⟨?_, ?_, ?_, ?_, ?_, ?_, ?_, ?_, ?_, ?_, ?_, ?_, ?_, ?_⟩
  · simp
  · simp
  · intro _
    exact hq
  · exact hs.lastDisp
  · exact hs.chain
  · intro i' dl' hmem'
    simp at hmem'
  · exact hs.dispIds
  · intro i' dl' hmem'
    simp at hmem'
  · intro i' hmem'
    simp at hmem'
  · show s.queue = List.range' (s.dispatches.length) s.queue.length
    rw [hq]
    simp
  · show s.nextId = s.dispatches.length + s.queue.length
    have h2 : startQ s = i + 1 := by simp [startQ, hsingle]
    have h3 := hs.nextIdEq
    rw [h2] at h3
    omega
  · show (s.delivered ++ [(i, work i)]).map Prod.fst =
      List.range (s.delivered ++ [(i, work i)]).length
    simp only [List.map_append, hs.delivIds, List.map_cons, List.map_nil]
    rw [hdlen]
    simp [List.range_succ, hdlen]
  · show (s.delivered ++ [(i, work i)]).length + 0 = s.dispatches.length
    simp only [List.length_append, List.length_cons, List.length_nil]
    omega
  · intro p hp
    rcases List.mem_append.mp hp with hold | hnew
    · exact hs.delivWork p hold
    · rw [List.mem_singleton.mp hnew]

theorem thrInv_settleNext {O : Type} {I : Nat} {work : Nat → O}
    {s : Throttler O} (hs : ThrInv I work s) (pre post : List RunInst)
    (i j : Nat) (rest : List Nat)
    (hins : s.insts = pre ++ RunInst.mk i Phase.executing :: post)
    (hq : s.queue = j :: rest) :
    ThrInv I work (startRun I j
      { s with insts := pre ++ post, queue := rest,
               delivered := s.delivered ++ [(i, work i)] }) := by
  obtain ⟨rfl, rfl, hsingle⟩ := single_of_append_len_le hins hs.instLen
  have hmem : RunInst.mk i Phase.executing ∈ s.insts := by
    rw [hsingle]; exact List.mem_singleton.mpr rfl
  have hid : i + 1 = s.dispatches.length := hs.execId i hmem
  have hexec : execCount s = 1 := by simp [execCount, hsingle, Phase.isExec]
  have hdlen : s.delivered.length = i := by
    have hc := hs.delivCount
    omega
  have hrun : s.running = true := hs.runIff.mpr (by rw [hsingle]; simp)
  have hsq : startQ s = i + 1 := by simp [startQ, hsingle]
  have hqr : j :: rest = List.range' (i + 1) (rest.length + 1) := by
    have h2 := hs.queueIds
    rw [hq, hsq] at h2
    simpa using h2
  have hj : j = i + 1 ∧ rest = List.range' (i + 1 + 1) rest.length := by
    rw [List.range'_succ] at hqr
    injection hqr with ha hb
    exact ⟨ha, hb⟩
  apply thrInv_startRun
  · exact hrun
  · simp
  · show j = s.dispatches.length
    rw [hj.1]
    exact hid
  · show rest = List.range' (j + 1) rest.length
    rw [hj.1]
    exact hj.2
  · show s.nextId = j + 1 + rest.length
    have h3 := hs.nextIdEq
    rw [hsq, hq] at h3
    simp at h3
    omega
  · exact hs.lastDisp
  · exact hs.chain
  · exact hs.dispIds
  · show (s.delivered ++ [(i, work i)]).map Prod.fst =
      List.range (s.delivered ++ [(i, work i)]).length
    simp only [List.map_append, hs.delivIds, List.map_cons, List.map_nil]
    rw [hdlen]
    simp [List.range_succ, hdlen]
  · show (s.delivered ++ [(i, work i)]).length = s.dispatches.length
    simp only [List.length_append, List.length_cons, List.length_nil]
    omega
  · intro p hp
    rcases List.mem_append.mp hp with hold | hnew
    · exact hs.delivWork p hold
    · rw [List.mem_singleton.mp hnew]

/-- The invariant is preserved by every step. -/
theorem thrInv_step {O : Type} {I : Nat} {work : Nat → O} {s s' : Throttler O}
    (hs : ThrInv I work s) (hst : ThrStep I work s s') : ThrInv I work s' := by
  cases hst with
  | tick d => exact thrInv_tick hs d
  | submitIdle h => exact thrInv_submitIdle hs h
  | submitBusy h => exact thrInv_submitBusy hs h
  | fire pre post i dl hins hnow => exact thrInv_fire hs pre post i dl hins hnow
  | settleIdle pre post i hins hq => exact thrInv_settleIdle hs pre post i hins hq
  | settleNext pre post i j rest hins hq =>
    exact thrInv_settleNext hs pre post i j rest hins hq

/-- The invariant holds initially. -/
theorem thrInv_init {O : Type} (I : Nat) (work : Nat → O) (n0 : Nat) :
    ThrInv I work (initThr O n0) := by
  refine ⟨?_, ?_, ?_, ?_, ?_, ?_, ?_, ?_, ?_, ?_, ?_, ?_, ?_, ?_⟩ <;>
    simp [initThr, startQ, execCount]

/-- The invariant holds in every reachable state. -/
theorem thrInv_reach {O : Type} {I : Nat} {work : Nat → O} {n0 : Nat}
    {s : Throttler O} (h : ThrReach I work n0 s) : ThrInv I work s := by
  induction h with
  | refl => exact thrInv_init I work n0
  | tail _ hstep ih => exact thrInv_step ih hstep

/-- `startRun` never touches the delivery log. -/
theorem startRun_delivered {O : Type} (I i : Nat) (s : Throttler O) :
    (startRun I i s).delivered = s.delivered := by
  unfold startRun
  split <;> rfl

/-- `startRun` puts entry `i` in flight (executing or waiting). -/
theorem startRun_insts {O : Type} (I i : Nat) (s : Throttler O) :
    ∃ ph, (startRun I i s).insts = s.insts ++ [RunInst.mk i ph] := by
  unfold startRun
  split
  · exact ⟨Phase.executing, rfl⟩
  · exact ⟨Phase.waiting (s.lastTime + I), rfl⟩

/-- The first demo step: submitting to the idle throttler dispatches entry 0
immediately at time 1000. -/
theorem demoStep1 :
    ThrStep 100 demoWork (initThr (Except String Unit) 1000) demoS1 :=
  ThrStep.submitIdle (initThr (Except String Unit) 1000) rfl

/-- The second demo step: a submission while busy queues entry 1. -/
theorem demoStep2 : ThrStep 100 demoWork demoS1 demoS2 :=
  ThrStep.submitBusy demoS1 rfl

/-- `demoS2` is reachable. -/
theorem demoReach : ThrReach 100 demoWork 1000 demoS2 :=
  Relation.ReflTransGen.tail (Relation.ReflTransGen.single demoStep1) demoStep2

/-- Claim C1 (mutual exclusion): in every reachable state, for every
pattern of concurrent submissions, at most one in-flight `run` activation
exists and hence at most one unit of work is executing — whenever one
submitted work function has started and not yet completed, no other has
been started. -/
theorem c1_mutual_exclusion {O : Type} (I : Nat) (work : Nat → O) (n0 : Nat)
    (s : Throttler O) (h : ThrReach I work n0 s) :
    execCount s ≤ 1 ∧ s.insts.length ≤ 1 := by
  have hv := thrInv_reach h
  exact ⟨le_trans (List.length_filter_le _ _) hv.instLen, hv.instLen⟩

/-- Witness for C1 at a concrete reachable state. -/
theorem c1_witness : execCount demoS2 ≤ 1 ∧ demoS2.insts.length ≤ 1 :=
  c1_mutual_exclusion 100 demoWork 1000 demoS2 demoReach

/-- Claim C2 (spacing invariant): in every reachable state of a Throttler
with interval `I`, the start timestamps of consecutive dispatches differ by
at least `I`. -/
theorem c2_spacing {O : Type} (I : Nat) (work : Nat → O) (n0 : Nat)
    (s : Throttler O) (h : ThrReach I work n0 s) :
    List.Chain' (fun a b : Nat × Nat => a.2 + I ≤ b.2) s.dispatches :=
  (thrInv_reach h).chain

/-- Witness for C2 at a concrete reachable state. -/
theorem c2_witness :
    List.Chain' (fun a b : Nat × Nat => a.2 + 100 ≤ b.2) demoS2.dispatches :=
  c2_spacing 100 demoWork 1000 demoS2 demoReach

/-- Claim C3 (FIFO dispatch): in every reachable state, the dispatch log
lists exactly the submission ids `0, 1, 2, ...` in submission order — units
of work are invoked in the order `schedule` was called on them, and no entry
is dispatched before an earlier-submitted one. -/
theorem c3_fifo {O : Type} (I : Nat) (work : Nat → O) (n0 : Nat)
    (s : Throttler O) (h : ThrReach I work n0 s) :
    s.dispatches.map Prod.fst = List.range s.dispatches.length :=
  (thrInv_reach h).dispIds

/-- Witness for C3 at a concrete reachable state. -/
theorem c3_witness :
    demoS2.dispatches.map Prod.fst = List.range demoS2.dispatches.length :=
  c3_fifo 100 demoWork 1000 demoS2 demoReach

/-- Claim C8 (failure isolation): in every reachable state, every outcome
already delivered went verbatim to exactly the caller that submitted that
unit of work (`p.2 = work p.1`), deliveries happen in submission order with
none skipped; and when the running entry `i` settles (with a failure or
not) while entry `j` is queued behind it, the very next step delivers `i`'s
own outcome to `i`'s caller and puts `j` in flight — the queue keeps
draining after any failure. -/
theorem c8_failure_isolation {O : Type} (I : Nat) (work : Nat → O) (n0 : Nat)
    (s : Throttler O) (h : ThrReach I work n0 s) (i j : Nat) (rest : List Nat)
    (hins : s.insts = [RunInst.mk i Phase.executing])
    (hq : s.queue = j :: rest) :
    (∀ p ∈ s.delivered, p.2 = work p.1) ∧
    s.delivered.map Prod.fst = List.range s.delivered.length ∧
    ∃ s', ThrStep I work s s' ∧
      s'.delivered = s.delivered ++ [(i, work i)] ∧
      ∃ r ∈ s'.insts, r.id = j := by
  have hv := thrInv_reach h
  refine ⟨hv.delivWork, hv.delivIds, ?_⟩
  refine ⟨_, ThrStep.settleNext s [] [] i j rest (by simpa using hins) hq,
    ?_, ?_⟩
  · rw [startRun_delivered]
  · obtain ⟨ph, hph⟩ := startRun_insts I j
      { s with insts := ([] : List RunInst) ++ [], queue := rest,
               delivered := s.delivered ++ [(i, work i)] }
    refine ⟨RunInst.mk j ph, ?_, rfl⟩
    rw [hph]
    simp

/-- Witness for C8 at a concrete reachable state: entry 0 is executing a
failing work, entry 1 is queued. -/
theorem c8_witness :
    (∀ p ∈ demoS2.delivered, p.2 = demoWork p.1) ∧
    demoS2.delivered.map Prod.fst = List.range demoS2.delivered.length ∧
    ∃ s', ThrStep 100 demoWork demoS2 s' ∧
      s'.delivered = demoS2.delivered ++ [(0, demoWork 0)] ∧
      ∃ r ∈ s'.insts, r.id = 1 :=
  c8_failure_isolation 100 demoWork 1000 demoS2 demoReach 0 1 [] rfl rfl
